import Mathlib

/-!
Verification of the auto-materialize rule evaluation core of
`dagster/_core/definitions/auto_materialize_rule.py`.

The Python module is shallowly embedded: each rule's configuration becomes a
constructor of an inductive type, each evaluation function becomes a Lean
function over explicit inputs, and every collaborator query (asset graph,
instance queryer, run store) becomes an explicit function parameter, since the
collaborators are outside the reviewed source and are specified only at their
interface boundary.  Machine details that Python leaves opaque (the value of
`hash(type(cls))`, the identity of partition keys) are modelled by concrete
total functions whose exact values are irrelevant to the statements proved.
-/

set_option maxHeartbeats 1600000

namespace DagsterAutoMaterialize

/-- `AssetKeyPartitionKey(asset_key, partition_key=None)` from
`dagster/_core/definitions/events.py`: the atomic entity-partition pair over
which every subset and decision is made.  Asset keys and partition keys are
opaque identifiers, modelled as strings. -/
structure AssetKeyPartitionKey where
  assetKey : String
  partitionKey : Option String := none
  deriving DecidableEq

/-- Configuration carried by `AutoMaterializeAssetPartitionsFilter`, the single
NamedTuple field `latest_run_required_tags: Optional[Mapping[str, str]]`.  A
mapping is modelled as an association list of key-value pairs. -/
structure AMAssetPartitionsFilter where
  latestRunRequiredTags : Option (List (String × String))
  deriving DecidableEq

/-- `AutoMaterializeDecisionType` from
`auto_materialize_rule_evaluation.py`: the decision kind of a rule. -/
inductive AutoMaterializeDecisionType where
  | materialize
  | skip
  | discard
  deriving DecidableEq

/-- The closed set of `AutoMaterializeRule` subclasses defined in
`auto_materialize_rule.py`, each constructor carrying exactly the NamedTuple
configuration fields of the corresponding Python class (empty-tuple classes
carry nothing). -/
inductive AMRule where
  | materializeOnRequiredForFreshness
  | materializeOnCron (cronSchedule : String) (timezone : String) (allPartitions : Bool)
  | materializeOnParentUpdated (updatedParentFilter : Option AMAssetPartitionsFilter)
  | materializeOnMissing
  | skipOnParentOutdated
  | skipOnParentMissing
  | skipOnNotAllParentsUpdated (requireUpdateForAllParentPartitions : Bool)
  | skipOnRequiredButNonexistentParents
  | skipOnBackfillInProgress (allPartitions : Bool)
  | discardOnMaxMaterializationsExceeded (limit : Int)
  deriving DecidableEq

/-- The `decision_type` property of each rule class. -/
def AMRule.decisionType : AMRule → AutoMaterializeDecisionType
  | .materializeOnRequiredForFreshness => .materialize
  | .materializeOnCron _ _ _ => .materialize
  | .materializeOnParentUpdated _ => .materialize
  | .materializeOnMissing => .materialize
  | .skipOnParentOutdated => .skip
  | .skipOnParentMissing => .skip
  | .skipOnNotAllParentsUpdated _ => .skip
  | .skipOnRequiredButNonexistentParents => .skip
  | .skipOnBackfillInProgress _ => .skip
  | .discardOnMaxMaterializationsExceeded _ => .discard

/-- A single configuration field value of a rule's NamedTuple, tagged with its
Python type so that values of different types are distinguishable. -/
inductive FieldVal where
  | fstr (s : String)
  | fbool (b : Bool)
  | fint (n : Int)
  | ffilter (f : Option AMAssetPartitionsFilter)
  deriving DecidableEq

/-- Model of Python's `type(self)`: a tag distinguishing the ten rule
subclasses.  Two rule values have the same tag exactly when they are instances
of the same Python class. -/
def variantTag : AMRule → Nat
  | .materializeOnRequiredForFreshness => 0
  | .materializeOnCron _ _ _ => 1
  | .materializeOnParentUpdated _ => 2
  | .materializeOnMissing => 3
  | .skipOnParentOutdated => 4
  | .skipOnParentMissing => 5
  | .skipOnNotAllParentsUpdated _ => 6
  | .skipOnRequiredButNonexistentParents => 7
  | .skipOnBackfillInProgress _ => 8
  | .discardOnMaxMaterializationsExceeded _ => 9

/-- The NamedTuple field tuple of each rule class, in declaration order;
`super().__eq__(other)` on a rule compares exactly these tuples. -/
def configFields : AMRule → List FieldVal
  | .materializeOnRequiredForFreshness => []
  | .materializeOnCron c tz ap => [.fstr c, .fstr tz, .fbool ap]
  | .materializeOnParentUpdated f => [.ffilter f]
  | .materializeOnMissing => []
  | .skipOnParentOutdated => []
  | .skipOnParentMissing => []
  | .skipOnNotAllParentsUpdated r => [.fbool r]
  | .skipOnRequiredButNonexistentParents => []
  | .skipOnBackfillInProgress ap => [.fbool ap]
  | .discardOnMaxMaterializationsExceeded l => [.fint l]

/-- `AutoMaterializeRule.__eq__`:
`type(self) == type(other) and super().__eq__(other)` — the class comparison
first, then the NamedTuple field-tuple comparison. -/
def ruleEq (r1 r2 : AMRule) : Bool :=
  variantTag r1 == variantTag r2 && configFields r1 == configFields r2

/-- Model of Python's opaque `hash(type(self))`: some fixed function of the
class.  The concrete values are irrelevant; all that the source guarantees is
that it is a function of the class alone. -/
def typeHash (tag : Nat) : Nat :=
  37 * tag + 11

/-- Model of Python's opaque tuple hash `super().__hash__()`: some fixed
function of the field tuple. -/
def fieldValHash : FieldVal → Nat
  | .fstr s => s.length + 2
  | .fbool b => cond b 1 0
  | .fint n => n.natAbs + 3
  | .ffilter none => 5
  | .ffilter (some f) => 7 + (f.latestRunRequiredTags.getD []).length

/-- Hash of a NamedTuple field tuple (model of `tuple.__hash__`). -/
def tupleHash (l : List FieldVal) : Nat :=
  l.foldl (fun a v => 31 * a + fieldValHash v) 7

/-- `AutoMaterializeRule.__hash__`:
`hash(hash(type(self)) + super().__hash__())` — a function of the class
together with the field tuple (the outer integer `hash` is the identity on
the modelled naturals). -/
def ruleHash (r : AMRule) : Nat :=
  typeHash (variantTag r) + tupleHash (configFields r)

/-- C1: for every pair of `AutoMaterializeRule` instances of different
variants, `__eq__` returns `False` (in particular when the configuration
field tuples coincide); for every pair of instances of the same variant with
equal configuration fields, `__eq__` returns `True` and the `__hash__`
values are equal. -/
theorem rule_eq_same_variant_and_config (r1 r2 : AMRule) :
    (variantTag r1 ≠ variantTag r2 → ruleEq r1 r2 = false) ∧
    (variantTag r1 = variantTag r2 → configFields r1 = configFields r2 →
      ruleEq r1 r2 = true ∧ ruleHash r1 = ruleHash r2) := by
  constructor
  · intro h
    simp only [ruleEq, Bool.and_eq_false_iff, beq_eq_false_iff_ne, ne_eq]
    exact Or.inl h
  · intro h1 h2
    refine ⟨?_, ?_⟩
    · simp only [ruleEq, h1, h2, beq_self_eq_true, Bool.and_self]
    · simp only [ruleHash, h1, h2]

/-- Witness for C1: `SkipOnBackfillInProgressRule(True)` and
`SkipOnNotAllParentsUpdatedRule(True)` carry identical configuration field
tuples yet compare unequal; two equal `MaterializeOnCronRule` instances
compare equal with equal hashes. -/
theorem rule_eq_same_variant_and_config_witness :
    (variantTag (AMRule.skipOnBackfillInProgress true) ≠
        variantTag (AMRule.skipOnNotAllParentsUpdated true) ∧
      configFields (AMRule.skipOnBackfillInProgress true) =
        configFields (AMRule.skipOnNotAllParentsUpdated true) ∧
      ruleEq (AMRule.skipOnBackfillInProgress true)
        (AMRule.skipOnNotAllParentsUpdated true) = false) ∧
    (ruleEq (AMRule.materializeOnCron "0 * * * *" "UTC" false)
        (AMRule.materializeOnCron "0 * * * *" "UTC" false) = true ∧
      ruleHash (AMRule.materializeOnCron "0 * * * *" "UTC" false) =
        ruleHash (AMRule.materializeOnCron "0 * * * *" "UTC" false)) :=
  ⟨⟨by decide, by decide,
    (rule_eq_same_variant_and_config (AMRule.skipOnBackfillInProgress true)
      (AMRule.skipOnNotAllParentsUpdated true)).1 (by decide)⟩,
   (rule_eq_same_variant_and_config (AMRule.materializeOnCron "0 * * * *" "UTC" false)
      (AMRule.materializeOnCron "0 * * * *" "UTC" false)).2 rfl rfl⟩

/-! ### Cron schedules and `MaterializeOnCronRule.missed_cron_ticks` -/

/-- Modelled from the spec: `cron_string_iterator` and
`reverse_cron_string_iterator` live in `dagster/_utils/schedules.py`, which is
not part of the reviewed source.  A cron schedule determines a discrete,
unbounded set of tick timestamps; the forward iterator started at `t` yields
the successive ticks strictly after `t` ("computes the set of schedule ticks
missed *between* the previous evaluation timestamp and now"), and the reverse
iterator ended at `t` yields first "the single most-recent tick strictly
before" `t`.  Timestamps are integers (seconds). -/
structure CronSchedule where
  isTick : Int → Bool
  nextTick : Int → Int
  prevTick : Int → Int

/-- Well-formedness of a modelled cron schedule: `nextTick t` is the least
tick strictly after `t`, and `prevTick t` is the greatest tick strictly
before `t`. -/
def CronSchedule.WellFormed (s : CronSchedule) : Prop :=
  (∀ t, t < s.nextTick t) ∧
  (∀ t, s.isTick (s.nextTick t) = true) ∧
  (∀ t u, s.isTick u = true → t < u → s.nextTick t ≤ u) ∧
  (∀ t, s.prevTick t < t) ∧
  (∀ t, s.isTick (s.prevTick t) = true) ∧
  (∀ t u, s.isTick u = true → u < t → u ≤ s.prevTick t)

/-- The loop body of `MaterializeOnCronRule.missed_cron_ticks`: walk the
forward cron iterator from `cur`, stopping as soon as a tick lands strictly
after `evalTime` (`if dt > context.evaluation_time: break`), collecting every
tick seen before that.  `fuel` bounds the recursion; since consecutive integer
ticks are at least 1 apart, `evalTime - start + 1` steps always suffice. -/
def collectMissedTicks (s : CronSchedule) (evalTime : Int) : Nat → Int → List Int
  | 0, _ => []
  | fuel + 1, cur =>
    let dt := s.nextTick cur
    if evalTime < dt then [] else dt :: collectMissedTicks s evalTime fuel dt

/-- `MaterializeOnCronRule.missed_cron_ticks(context)`: with no previous
evaluation timestamp, return the single head of the reverse iterator ended at
the evaluation time; otherwise collect the forward iterator's ticks from the
previous timestamp until one exceeds the evaluation time. -/
def missedCronTicks (s : CronSchedule) (previousEvaluationTimestamp : Option Int)
    (evalTime : Int) : List Int :=
  match previousEvaluationTimestamp with
  | none => [s.prevTick evalTime]
  | some p => collectMissedTicks s evalTime ((evalTime - p).toNat + 1) p

/-- C2: `missed_cron_ticks` returns the empty sequence when the evaluation
time equals the previous evaluation timestamp exactly on a tick boundary
(there are then no ticks between them), and with no previous evaluation
timestamp it returns exactly one tick — the greatest tick strictly before the
evaluation time. -/
theorem missed_cron_ticks_boundary_and_seed (s : CronSchedule) (t : Int)
    (hwf : s.WellFormed) (_hts : s.isTick t = true) :
    missedCronTicks s (some t) t = [] ∧
    missedCronTicks s none t = [s.prevTick t] ∧
    s.prevTick t < t ∧
    (∀ u, s.isTick u = true → u < t → u ≤ s.prevTick t) := by
  obtain ⟨hnext_gt, -, -, hprev_lt, -, hprev_ge⟩ := hwf
  refine ⟨?_, rfl, hprev_lt t, fun u hu hut => hprev_ge t u hu hut⟩
  have h1 : (t - t).toNat + 1 = 1 := by omega
  simp only [missedCronTicks, h1, collectMissedTicks]
  have := hnext_gt t
  simp only [if_pos this]

/-- A concrete minutely cron schedule ("* * * * *"): ticks at every multiple
of 60 seconds. -/
def minutelySchedule : CronSchedule where
  isTick t := t % 60 == 0
  nextTick t := 60 * (t / 60) + 60
  prevTick t := 60 * ((t - 1) / 60)

/-- The concrete minutely schedule is well-formed. -/
theorem minutelySchedule_wf : minutelySchedule.WellFormed := by
  refine ⟨fun t => ?_, fun t => ?_, fun t u hu htu => ?_, fun t => ?_, fun t => ?_,
    fun t u hu hut => ?_⟩ <;>
    simp only [minutelySchedule, beq_iff_eq] at * <;> omega

/-- Witness for C2 at the minutely schedule: the evaluation time `120` is a
tick boundary equal to the previous timestamp, and a first-ever evaluation at
`120` is seeded with the single preceding tick `60`. -/
theorem missed_cron_ticks_boundary_and_seed_witness :
    minutelySchedule.isTick 120 = true ∧
    (missedCronTicks minutelySchedule (some 120) 120 = [] ∧
      missedCronTicks minutelySchedule none 120 = [minutelySchedule.prevTick 120] ∧
      minutelySchedule.prevTick 120 < 120 ∧
      (∀ u, minutelySchedule.isTick u = true → u < 120 →
        u ≤ minutelySchedule.prevTick 120)) :=
  ⟨by decide,
   missed_cron_ticks_boundary_and_seed minutelySchedule 120 minutelySchedule_wf (by decide)⟩

/-! ### `DiscardOnMaxMaterializationsExceededRule` -/

/-- Modelled from the spec: `sort_key_for_asset_partition` lives in
`asset_graph.py`, which is not part of the reviewed source; the spec describes
the order it induces as "a total order over entity-partitions (topological
position in the dependency graph, then partition key)".  A candidate is
therefore identified by its asset's topological position together with its
partition key; distinct assets occupy distinct topological positions, so this
pair determines the entity-partition and the lexicographic order below is a
linear order. -/
structure OrderedCandidate where
  topoIndex : Nat
  partitionKey : String
  deriving DecidableEq

/-- The total order induced by `sort_key_for_asset_partition`: topological
position first, then partition key. -/
def candLE (a b : OrderedCandidate) : Prop :=
  a.topoIndex < b.topoIndex ∨
    (a.topoIndex = b.topoIndex ∧ a.partitionKey ≤ b.partitionKey)

instance : DecidableRel candLE := fun a b => by
  unfold candLE; infer_instance

instance : IsTotal OrderedCandidate candLE := by
  constructor
  intro a b
  rcases Nat.lt_trichotomy a.topoIndex b.topoIndex with h | h | h
  · exact Or.inl (Or.inl h)
  · rcases le_total a.partitionKey b.partitionKey with hp | hp
    · exact Or.inl (Or.inr ⟨h, hp⟩)
    · exact Or.inr (Or.inr ⟨h.symm, hp⟩)
  · exact Or.inr (Or.inl h)

instance : IsTrans OrderedCandidate candLE := by
  constructor
  intro a b c hab hbc
  rcases hab with h1 | ⟨h1, hp1⟩ <;> rcases hbc with h2 | ⟨h2, hp2⟩
  · exact Or.inl (h1.trans h2)
  · exact Or.inl (h2 ▸ h1)
  · exact Or.inl (h1 ▸ h2)
  · exact Or.inr ⟨h1.trans h2, hp1.trans hp2⟩

instance : IsAntisymm OrderedCandidate candLE := by
  constructor
  intro a b hab hba
  obtain ⟨at', ap⟩ := a
  obtain ⟨bt, bp⟩ := b
  simp only [candLE] at hab hba
  rcases hab with h1 | ⟨h1, hp1⟩ <;> rcases hba with h2 | ⟨h2, hp2⟩
  · omega
  · omega
  · omega
  · have hp : ap = bp := le_antisymm hp1 hp2
    subst h1
    subst hp
    rfl

/-- `DiscardOnMaxMaterializationsExceededRule.evaluate_for_asset`: the
rate-limited asset partitions are
`sorted(candidates, key=sort_key_for_asset_partition)[limit:]` — sort the
candidates under the total order and drop the first `limit` of them.  The
Python `limit` is a non-negative count, modelled as `Nat`. -/
def discardEvaluateForAsset (limit : Nat) (candidates : List OrderedCandidate) :
    List OrderedCandidate :=
  (List.insertionSort candLE candidates).drop limit

/-- C3: for a candidate list of length `n` and limit `L`, the discard rule's
result is exactly the candidates beyond the first `L` positions of the sorted
order: it has size `n - L` (that is, `max 0 (n - L)`), the sorted order is the
kept `L` earliest candidates followed by the result, every discarded candidate
is at least every kept one under the order, and a permutation of the input
yields the identical result. -/
theorem discard_drops_beyond_limit (limit : Nat) (l l' : List OrderedCandidate)
    (hperm : l.Perm l') :
    (discardEvaluateForAsset limit l).length = l.length - limit ∧
    (List.insertionSort candLE l).take limit ++ discardEvaluateForAsset limit l =
      List.insertionSort candLE l ∧
    (∀ x ∈ discardEvaluateForAsset limit l,
      ∀ y ∈ (List.insertionSort candLE l).take limit, candLE y x) ∧
    discardEvaluateForAsset limit l = discardEvaluateForAsset limit l' := by
  have hsort : ∀ m : List OrderedCandidate,
      List.Sorted candLE (List.insertionSort candLE m) :=
    fun m => List.sorted_insertionSort candLE m
  refine ⟨?_, ?_, ?_, ?_⟩
  · rw [discardEvaluateForAsset, List.length_drop,
      (List.perm_insertionSort candLE l).length_eq]
  · exact List.take_append_drop limit (List.insertionSort candLE l)
  · have hs := hsort l
    rw [List.Sorted, ← List.take_append_drop limit (List.insertionSort candLE l),
      List.pairwise_append] at hs
    intro x hx y hy
    exact hs.2.2 y hy x hx
  · have heq : List.insertionSort candLE l = List.insertionSort candLE l' :=
      List.eq_of_perm_of_sorted
        (((List.perm_insertionSort candLE l).trans hperm).trans
          (List.perm_insertionSort candLE l').symm)
        (hsort l) (hsort l')
    rw [discardEvaluateForAsset, discardEvaluateForAsset, heq]

/-- Witness for C3, the spec's example: limit `2` over `5` candidates (given
in two different iteration orders) discards exactly the `3` lowest-priority
ones and keeps the top `2`. -/
theorem discard_drops_beyond_limit_witness :
    (List.Perm
      [OrderedCandidate.mk 1 "c", OrderedCandidate.mk 0 "a", OrderedCandidate.mk 2 "e",
        OrderedCandidate.mk 1 "b", OrderedCandidate.mk 2 "d"]
      [OrderedCandidate.mk 2 "d", OrderedCandidate.mk 2 "e", OrderedCandidate.mk 1 "b",
        OrderedCandidate.mk 1 "c", OrderedCandidate.mk 0 "a"]) ∧
    ((discardEvaluateForAsset 2
        [OrderedCandidate.mk 1 "c", OrderedCandidate.mk 0 "a", OrderedCandidate.mk 2 "e",
          OrderedCandidate.mk 1 "b", OrderedCandidate.mk 2 "d"]).length = 5 - 2 ∧
      (List.insertionSort candLE
          [OrderedCandidate.mk 1 "c", OrderedCandidate.mk 0 "a", OrderedCandidate.mk 2 "e",
            OrderedCandidate.mk 1 "b", OrderedCandidate.mk 2 "d"]).take 2 ++
        discardEvaluateForAsset 2
          [OrderedCandidate.mk 1 "c", OrderedCandidate.mk 0 "a", OrderedCandidate.mk 2 "e",
            OrderedCandidate.mk 1 "b", OrderedCandidate.mk 2 "d"] =
        List.insertionSort candLE
          [OrderedCandidate.mk 1 "c", OrderedCandidate.mk 0 "a", OrderedCandidate.mk 2 "e",
            OrderedCandidate.mk 1 "b", OrderedCandidate.mk 2 "d"] ∧
      (∀ x ∈ discardEvaluateForAsset 2
          [OrderedCandidate.mk 1 "c", OrderedCandidate.mk 0 "a", OrderedCandidate.mk 2 "e",
            OrderedCandidate.mk 1 "b", OrderedCandidate.mk 2 "d"],
        ∀ y ∈ (List.insertionSort candLE
            [OrderedCandidate.mk 1 "c", OrderedCandidate.mk 0 "a", OrderedCandidate.mk 2 "e",
              OrderedCandidate.mk 1 "b", OrderedCandidate.mk 2 "d"]).take 2, candLE y x) ∧
      discardEvaluateForAsset 2
          [OrderedCandidate.mk 1 "c", OrderedCandidate.mk 0 "a", OrderedCandidate.mk 2 "e",
            OrderedCandidate.mk 1 "b", OrderedCandidate.mk 2 "d"] =
        discardEvaluateForAsset 2
          [OrderedCandidate.mk 2 "d", OrderedCandidate.mk 2 "e", OrderedCandidate.mk 1 "b",
            OrderedCandidate.mk 1 "c", OrderedCandidate.mk 0 "a"]) :=
  ⟨by decide,
   discard_drops_beyond_limit 2
     [OrderedCandidate.mk 1 "c", OrderedCandidate.mk 0 "a", OrderedCandidate.mk 2 "e",
       OrderedCandidate.mk 1 "b", OrderedCandidate.mk 2 "d"]
     [OrderedCandidate.mk 2 "d", OrderedCandidate.mk 2 "e", OrderedCandidate.mk 1 "b",
       OrderedCandidate.mk 1 "c", OrderedCandidate.mk 0 "a"]
     (by decide)⟩

/-! ### `SkipOnBackfillInProgressRule` -/

/-- `AssetSubset.as_valid(partitions_def)` for one asset's subset: keep only
the partition keys that exist under the asset's current partitions
definition.  A partition subset of a single asset is modelled as a `Finset`
of partition keys. -/
def asValid (s validPartitions : Finset String) : Finset String :=
  s ∩ validPartitions

/-- `SkipOnBackfillInProgressRule.evaluate_for_asset`: restrict the active
backfill's target subset for this asset to current partition validity; if
that is empty the result is the empty subset, else with `all_partitions` set
the result is the full candidate subset, else it is the candidates
intersected with the backfilling subset. -/
def skipOnBackfillEvaluateForAsset (allPartitions : Bool)
    (backfillTargetSubset validPartitions candidateSubset : Finset String) :
    Finset String :=
  let backfillingSubset := asValid backfillTargetSubset validPartitions
  if backfillingSubset.card = 0 then ∅
  else if allPartitions then candidateSubset
  else candidateSubset ∩ backfillingSubset

/-- C4: if the active backfill targets no currently-valid partition of the
asset the skip subset is empty; otherwise with `all_partitions` set it is the
full candidate subset, and with `all_partitions` unset it is the candidates
intersected with the backfill's targets restricted to current validity. -/
theorem skip_on_backfill_cases (allPartitions : Bool)
    (backfillTargetSubset validPartitions candidateSubset : Finset String) :
    (backfillTargetSubset ∩ validPartitions = ∅ →
      skipOnBackfillEvaluateForAsset allPartitions backfillTargetSubset
        validPartitions candidateSubset = ∅) ∧
    (backfillTargetSubset ∩ validPartitions ≠ ∅ →
      skipOnBackfillEvaluateForAsset true backfillTargetSubset
        validPartitions candidateSubset = candidateSubset) ∧
    (backfillTargetSubset ∩ validPartitions ≠ ∅ →
      skipOnBackfillEvaluateForAsset false backfillTargetSubset
        validPartitions candidateSubset =
        candidateSubset ∩ (backfillTargetSubset ∩ validPartitions)) := by
  refine ⟨fun h => ?_, fun h => ?_, fun h => ?_⟩ <;>
    simp [skipOnBackfillEvaluateForAsset, asValid, Finset.card_eq_zero, h]

/-- Witness for C4 at a concrete backfill: target `{"p1"}` over valid
partitions `{"p1", "p2"}` with candidates `{"p1", "p2"}`. -/
theorem skip_on_backfill_cases_witness :
    ((∅ : Finset String) ∩ {"p1", "p2"} = ∅ →
      skipOnBackfillEvaluateForAsset true ∅ {"p1", "p2"} {"p1", "p2"} = ∅) ∧
    (({"p1"} : Finset String) ∩ {"p1", "p2"} ≠ ∅ ∧
      skipOnBackfillEvaluateForAsset true {"p1"} {"p1", "p2"} {"p1", "p2"} =
        {"p1", "p2"} ∧
      skipOnBackfillEvaluateForAsset false {"p1"} {"p1", "p2"} {"p1", "p2"} =
        {"p1", "p2"} ∩ ({"p1"} ∩ {"p1", "p2"})) :=
  ⟨(skip_on_backfill_cases true ∅ {"p1", "p2"} {"p1", "p2"}).1,
   ⟨by decide,
    (skip_on_backfill_cases true {"p1"} {"p1", "p2"} {"p1", "p2"}).2.1 (by decide),
    (skip_on_backfill_cases false {"p1"} {"p1", "p2"} {"p1", "p2"}).2.2 (by decide)⟩⟩

/-! ### `SkipOnNotAllParentsUpdatedRule` -/

/-- Per-candidate core of `SkipOnNotAllParentsUpdatedRule.evaluate_for_asset`
(the computation of `non_updated_parent_keys`).  Inputs are the candidate's
parent partitions as returned by `asset_graph.get_parents_partitions`, the
parent partitions the instance queryer reports updated after the child, the
parent partitions that will update on this tick
(`parent_will_update_subset`), and the asset's parent asset keys
(`asset_graph.get_parents`).  With the flag set, the non-updated keys are the
keys of `parent_partitions - updated_parent_partitions`; otherwise they are
the parent asset keys minus the keys of the updated parent partitions; in
both cases the candidate's own asset key is removed at the end. -/
def nonUpdatedParentKeys (requireUpdateForAllParentPartitions : Bool)
    (selfAssetKey : String)
    (parentPartitions updatedFromQuery parentWillUpdate : Finset AssetKeyPartitionKey)
    (parentAssetKeys : Finset String) : Finset String :=
  (if requireUpdateForAllParentPartitions then
    (parentPartitions \ (updatedFromQuery ∪ parentWillUpdate)).image
      (fun p => p.assetKey)
  else
    parentAssetKeys \
      ((updatedFromQuery ∪ parentWillUpdate).image (fun p => p.assetKey))) \
    {selfAssetKey}

/-- C5: provided the asset is not its own parent, with
`require_update_for_all_parent_partitions` false the non-updated parent set
is exactly the parent asset keys with zero updated-or-will-update partitions,
and with the flag true it is exactly the asset keys of parent partitions that
are neither updated nor will update. -/
theorem non_updated_parent_keys_spec (selfAssetKey : String)
    (parentPartitions updatedFromQuery parentWillUpdate : Finset AssetKeyPartitionKey)
    (parentAssetKeys : Finset String) (k : String)
    (hself_keys : selfAssetKey ∉ parentAssetKeys)
    (hself_parts : ∀ p ∈ parentPartitions, p.assetKey ≠ selfAssetKey) :
    (k ∈ nonUpdatedParentKeys false selfAssetKey parentPartitions updatedFromQuery
        parentWillUpdate parentAssetKeys ↔
      k ∈ parentAssetKeys ∧
        ∀ p ∈ updatedFromQuery ∪ parentWillUpdate, p.assetKey ≠ k) ∧
    (k ∈ nonUpdatedParentKeys true selfAssetKey parentPartitions updatedFromQuery
        parentWillUpdate parentAssetKeys ↔
      ∃ p ∈ parentPartitions,
        p ∉ updatedFromQuery ∪ parentWillUpdate ∧ p.assetKey = k) := by
  constructor
  · rw [nonUpdatedParentKeys, if_neg Bool.false_ne_true, Finset.mem_sdiff,
      Finset.mem_sdiff, Finset.mem_singleton]
    constructor
    · rintro ⟨⟨hk, hnot⟩, -⟩
      refine ⟨hk, fun p hp hpk => hnot ?_⟩
      rw [Finset.mem_image]
      exact ⟨p, hp, hpk⟩
    · rintro ⟨hk, hall⟩
      refine ⟨⟨hk, fun hmem => ?_⟩, fun hks => hself_keys (hks ▸ hk)⟩
      rw [Finset.mem_image] at hmem
      obtain ⟨p, hp, hpk⟩ := hmem
      exact hall p hp hpk
  · rw [nonUpdatedParentKeys, if_pos rfl, Finset.mem_sdiff, Finset.mem_singleton,
      Finset.mem_image]
    constructor
    · rintro ⟨⟨p, hp, hpk⟩, -⟩
      rw [Finset.mem_sdiff] at hp
      exact ⟨p, hp.1, hp.2, hpk⟩
    · rintro ⟨p, hp, hpnot, hpk⟩
      exact ⟨⟨p, Finset.mem_sdiff.mpr ⟨hp, hpnot⟩, hpk⟩,
        fun hks => hself_parts p hp (hpk.trans hks)⟩

/-- Witness for C5, the spec's example: candidate of asset `X` with parents
`A` (three partitions, one updated) and `B` (two partitions, none updated);
the key `B` belongs to the non-updated set under the flag-false semantics. -/
theorem non_updated_parent_keys_spec_witness :
    ("X" ∉ ({"A", "B"} : Finset String) ∧
      (∀ p ∈ ({⟨"A", some "a1"⟩, ⟨"A", some "a2"⟩, ⟨"A", some "a3"⟩,
          ⟨"B", some "b1"⟩, ⟨"B", some "b2"⟩} : Finset AssetKeyPartitionKey),
        p.assetKey ≠ "X")) ∧
    (("B" ∈ nonUpdatedParentKeys false "X"
        {⟨"A", some "a1"⟩, ⟨"A", some "a2"⟩, ⟨"A", some "a3"⟩,
          ⟨"B", some "b1"⟩, ⟨"B", some "b2"⟩}
        {⟨"A", some "a1"⟩} ∅ {"A", "B"} ↔
      "B" ∈ ({"A", "B"} : Finset String) ∧
        ∀ p ∈ ({⟨"A", some "a1"⟩} : Finset AssetKeyPartitionKey) ∪ ∅,
          p.assetKey ≠ "B") ∧
    ("B" ∈ nonUpdatedParentKeys true "X"
        {⟨"A", some "a1"⟩, ⟨"A", some "a2"⟩, ⟨"A", some "a3"⟩,
          ⟨"B", some "b1"⟩, ⟨"B", some "b2"⟩}
        {⟨"A", some "a1"⟩} ∅ {"A", "B"} ↔
      ∃ p ∈ ({⟨"A", some "a1"⟩, ⟨"A", some "a2"⟩, ⟨"A", some "a3"⟩,
          ⟨"B", some "b1"⟩, ⟨"B", some "b2"⟩} : Finset AssetKeyPartitionKey),
        p ∉ ({⟨"A", some "a1"⟩} : Finset AssetKeyPartitionKey) ∪ ∅ ∧
          p.assetKey = "B")) := by
  refine ⟨⟨by decide, by decide⟩, ?_⟩
  have h := non_updated_parent_keys_spec "X"
    {⟨"A", some "a1"⟩, ⟨"A", some "a2"⟩, ⟨"A", some "a3"⟩,
      ⟨"B", some "b1"⟩, ⟨"B", some "b2"⟩}
    {⟨"A", some "a1"⟩} ∅ {"A", "B"} "B" (by decide) (by decide)
  exact h

/-! ### Skip-rule scoping and the cross-tick carry-forward merge -/

/-- Modelled from the spec:
`AssetConditionEvaluationContext.add_evaluation_data_from_previous_tick` lives
in `asset_condition_evaluation_context.py`, outside the reviewed source; the
spec describes it as unioning this tick's newly-computed true subset with the
previous tick's carried subset "restricted to partitions outside that
exclusion set". -/
def addEvaluationDataFromPreviousTick
    (newTrueSubset previousTrueSubset ignoreSubset : Finset AssetKeyPartitionKey) :
    Finset AssetKeyPartitionKey :=
  newTrueSubset ∪ (previousTrueSubset \ ignoreSubset)

/-- The per-candidate body of `SkipOnParentOutdatedRule.evaluate_for_asset`:
the union of the outdated-ancestor sets of the candidate's parents that will
not be materialized on this tick, parents with an ignorable partition mapping
for outdatedness excluded; the candidate is flagged when it is non-empty. -/
def parentOutdatedFlag
    (parentsNotMaterializing : AssetKeyPartitionKey → Finset AssetKeyPartitionKey)
    (ignorableMapping : String → String → Bool)
    (outdatedAncestors : AssetKeyPartitionKey → Finset String)
    (candidate : AssetKeyPartitionKey) : Prop :=
  ((parentsNotMaterializing candidate).filter
      (fun parent => ignorableMapping candidate.assetKey parent.assetKey = false)).biUnion
      outdatedAncestors ≠ ∅

instance (parentsNotMaterializing : AssetKeyPartitionKey → Finset AssetKeyPartitionKey)
    (ignorableMapping : String → String → Bool)
    (outdatedAncestors : AssetKeyPartitionKey → Finset String) :
    DecidablePred
      (parentOutdatedFlag parentsNotMaterializing ignorableMapping outdatedAncestors) :=
  fun candidate => by unfold parentOutdatedFlag; infer_instance

/-- `SkipOnParentOutdatedRule.evaluate_for_asset`: only the union of net-new
candidates and candidates whose parents have or will update is re-examined;
the flagged ones among them form the new true subset, which is merged with
the previous tick's subset, ignoring the just-evaluated scope. -/
def skipOnParentOutdatedEvaluateForAsset
    (parentsNotMaterializing : AssetKeyPartitionKey → Finset AssetKeyPartitionKey)
    (ignorableMapping : String → String → Bool)
    (outdatedAncestors : AssetKeyPartitionKey → Finset String)
    (candidatesNotEvaluatedOnPreviousTick candidateParentHasOrWillUpdate
      previousTrueSubset : Finset AssetKeyPartitionKey) : Finset AssetKeyPartitionKey :=
  let subsetToEvaluate :=
    candidatesNotEvaluatedOnPreviousTick ∪ candidateParentHasOrWillUpdate
  addEvaluationDataFromPreviousTick
    (subsetToEvaluate.filter
      (parentOutdatedFlag parentsNotMaterializing ignorableMapping outdatedAncestors))
    previousTrueSubset subsetToEvaluate

/-- The per-candidate body of `SkipOnParentMissingRule.evaluate_for_asset`:
the asset keys of parents that will not materialize this tick and have no
materialization or observation record, non-observable sources excluded; the
candidate is flagged when the set is non-empty. -/
def parentMissingFlag
    (parentsNotMaterializing : AssetKeyPartitionKey → Finset AssetKeyPartitionKey)
    (isSource isObservable : String → Bool)
    (hasMaterializationOrObservation : AssetKeyPartitionKey → Bool)
    (candidate : AssetKeyPartitionKey) : Prop :=
  ((parentsNotMaterializing candidate).filter
      (fun parent =>
        ¬(isSource parent.assetKey = true ∧ isObservable parent.assetKey = false) ∧
          hasMaterializationOrObservation parent = false)).image
      (fun parent => parent.assetKey) ≠ ∅

instance (parentsNotMaterializing : AssetKeyPartitionKey → Finset AssetKeyPartitionKey)
    (isSource isObservable : String → Bool)
    (hasMaterializationOrObservation : AssetKeyPartitionKey → Bool) :
    DecidablePred
      (parentMissingFlag parentsNotMaterializing isSource isObservable
        hasMaterializationOrObservation) :=
  fun candidate => by unfold parentMissingFlag; infer_instance

/-- `SkipOnParentMissingRule.evaluate_for_asset`, with the same scoping and
carry-forward structure as the parent-outdated rule. -/
def skipOnParentMissingEvaluateForAsset
    (parentsNotMaterializing : AssetKeyPartitionKey → Finset AssetKeyPartitionKey)
    (isSource isObservable : String → Bool)
    (hasMaterializationOrObservation : AssetKeyPartitionKey → Bool)
    (candidatesNotEvaluatedOnPreviousTick candidateParentHasOrWillUpdate
      previousTrueSubset : Finset AssetKeyPartitionKey) : Finset AssetKeyPartitionKey :=
  let subsetToEvaluate :=
    candidatesNotEvaluatedOnPreviousTick ∪ candidateParentHasOrWillUpdate
  addEvaluationDataFromPreviousTick
    (subsetToEvaluate.filter
      (parentMissingFlag parentsNotMaterializing isSource isObservable
        hasMaterializationOrObservation))
    previousTrueSubset subsetToEvaluate

/-- The per-candidate body of
`SkipOnNotAllParentsUpdatedRule.evaluate_for_asset`: the candidate is flagged
when its non-updated parent key set is non-empty. -/
def notAllParentsUpdatedFlag (requireUpdateForAllParentPartitions : Bool)
    (selfAssetKey : String)
    (parentPartitionsOf updatedFromQueryOf :
      AssetKeyPartitionKey → Finset AssetKeyPartitionKey)
    (parentWillUpdate : Finset AssetKeyPartitionKey)
    (parentAssetKeys : Finset String) (candidate : AssetKeyPartitionKey) : Prop :=
  nonUpdatedParentKeys requireUpdateForAllParentPartitions selfAssetKey
    (parentPartitionsOf candidate) (updatedFromQueryOf candidate)
    parentWillUpdate parentAssetKeys ≠ ∅

instance (requireUpdateForAllParentPartitions : Bool) (selfAssetKey : String)
    (parentPartitionsOf updatedFromQueryOf :
      AssetKeyPartitionKey → Finset AssetKeyPartitionKey)
    (parentWillUpdate : Finset AssetKeyPartitionKey)
    (parentAssetKeys : Finset String) :
    DecidablePred
      (notAllParentsUpdatedFlag requireUpdateForAllParentPartitions selfAssetKey
        parentPartitionsOf updatedFromQueryOf parentWillUpdate parentAssetKeys) :=
  fun candidate => by unfold notAllParentsUpdatedFlag; infer_instance

/-- `SkipOnNotAllParentsUpdatedRule.evaluate_for_asset`, with the same
scoping and carry-forward structure as the parent-outdated rule. -/
def skipOnNotAllParentsUpdatedEvaluateForAsset
    (requireUpdateForAllParentPartitions : Bool) (selfAssetKey : String)
    (parentPartitionsOf updatedFromQueryOf :
      AssetKeyPartitionKey → Finset AssetKeyPartitionKey)
    (parentWillUpdate : Finset AssetKeyPartitionKey)
    (parentAssetKeys : Finset String)
    (candidatesNotEvaluatedOnPreviousTick candidateParentHasOrWillUpdate
      previousTrueSubset : Finset AssetKeyPartitionKey) : Finset AssetKeyPartitionKey :=
  let subsetToEvaluate :=
    candidatesNotEvaluatedOnPreviousTick ∪ candidateParentHasOrWillUpdate
  addEvaluationDataFromPreviousTick
    (subsetToEvaluate.filter
      (notAllParentsUpdatedFlag requireUpdateForAllParentPartitions selfAssetKey
        parentPartitionsOf updatedFromQueryOf parentWillUpdate parentAssetKeys))
    previousTrueSubset subsetToEvaluate

/-- The per-candidate body of
`SkipOnRequiredButNonexistentParentsRule.evaluate_for_asset`: the candidate is
flagged when the asset keys of its required-but-nonexistent parent partitions
form a non-empty set. -/
def nonexistentParentsFlag
    (nonexistentParentPartitionsOf :
      AssetKeyPartitionKey → Finset AssetKeyPartitionKey)
    (candidate : AssetKeyPartitionKey) : Prop :=
  (nonexistentParentPartitionsOf candidate).image (fun parent => parent.assetKey) ≠ ∅

instance (nonexistentParentPartitionsOf :
    AssetKeyPartitionKey → Finset AssetKeyPartitionKey) :
    DecidablePred (nonexistentParentsFlag nonexistentParentPartitionsOf) :=
  fun candidate => by unfold nonexistentParentsFlag; infer_instance

/-- `SkipOnRequiredButNonexistentParentsRule.evaluate_for_asset`, with the
same scoping and carry-forward structure as the parent-outdated rule. -/
def skipOnRequiredButNonexistentParentsEvaluateForAsset
    (nonexistentParentPartitionsOf :
      AssetKeyPartitionKey → Finset AssetKeyPartitionKey)
    (candidatesNotEvaluatedOnPreviousTick candidateParentHasOrWillUpdate
      previousTrueSubset : Finset AssetKeyPartitionKey) : Finset AssetKeyPartitionKey :=
  let subsetToEvaluate :=
    candidatesNotEvaluatedOnPreviousTick ∪ candidateParentHasOrWillUpdate
  addEvaluationDataFromPreviousTick
    (subsetToEvaluate.filter (nonexistentParentsFlag nonexistentParentPartitionsOf))
    previousTrueSubset subsetToEvaluate

/-- A candidate outside the evaluated scope takes its membership in the
merged result from the previous tick's subset, and a candidate inside the
scope takes it from this tick's fresh flag. -/
theorem mem_merge_scope_filter (scope previousTrueSubset : Finset AssetKeyPartitionKey)
    (p : AssetKeyPartitionKey → Prop) [DecidablePred p] (c : AssetKeyPartitionKey) :
    (c ∉ scope →
      (c ∈ addEvaluationDataFromPreviousTick (scope.filter p) previousTrueSubset scope ↔
        c ∈ previousTrueSubset)) ∧
    (c ∈ scope →
      (c ∈ addEvaluationDataFromPreviousTick (scope.filter p) previousTrueSubset scope ↔
        p c)) := by
  constructor
  · intro hc
    simp only [addEvaluationDataFromPreviousTick, Finset.mem_union, Finset.mem_sdiff,
      Finset.mem_filter]
    tauto
  · intro hc
    simp only [addEvaluationDataFromPreviousTick, Finset.mem_union, Finset.mem_sdiff,
      Finset.mem_filter]
    tauto

/-- C6 counterexample: the claim as stated quantifies over every SKIP-decision
rule, but `SkipOnBackfillInProgressRule` computes its result directly from the
current backfill state for the full candidate subset with no carry-forward, so
a candidate outside the re-examined scope need not inherit its previous-tick
skip status there. -/
theorem skip_rules_scope_claim_counterexample :
    ¬ (∀ (allPartitions : Bool)
        (backfillTargetSubset validPartitions candidateSubset
          candidatesNotEvaluatedOnPreviousTick candidateParentHasOrWillUpdate
          previousTrueSubset : Finset String),
        ∀ c ∈ candidateSubset,
          c ∉ candidatesNotEvaluatedOnPreviousTick ∪ candidateParentHasOrWillUpdate →
            (c ∈ skipOnBackfillEvaluateForAsset allPartitions backfillTargetSubset
                validPartitions candidateSubset ↔
              c ∈ previousTrueSubset)) := by
  intro h
  have hc := h false {"p"} {"p"} {"p"} ∅ ∅ ∅ "p" (by decide) (by decide)
  have hmem : "p" ∈ skipOnBackfillEvaluateForAsset false {"p"} {"p"} {"p"} := by decide
  exact absurd (hc.mp hmem) (by decide)

/-- C6 (amended): the four parent-related SKIP rules re-examine only the union
of candidates not evaluated on the previous tick and candidates whose parents
have or will update; every candidate outside that scope inherits its
previous-tick skip status through the carry-forward merge, while candidates
inside it get a freshly computed status.  (`SkipOnBackfillInProgressRule` is
the exception, re-evaluating all candidates from current backfill state.) -/
theorem scoped_skip_rules_inherit_outside_scope
    (parentsNotMaterializing : AssetKeyPartitionKey → Finset AssetKeyPartitionKey)
    (ignorableMapping : String → String → Bool)
    (outdatedAncestors : AssetKeyPartitionKey → Finset String)
    (isSource isObservable : String → Bool)
    (hasMaterializationOrObservation : AssetKeyPartitionKey → Bool)
    (requireUpdateForAllParentPartitions : Bool) (selfAssetKey : String)
    (parentPartitionsOf updatedFromQueryOf :
      AssetKeyPartitionKey → Finset AssetKeyPartitionKey)
    (parentWillUpdate : Finset AssetKeyPartitionKey) (parentAssetKeys : Finset String)
    (nonexistentParentPartitionsOf :
      AssetKeyPartitionKey → Finset AssetKeyPartitionKey)
    (candidatesNotEvaluatedOnPreviousTick candidateParentHasOrWillUpdate
      previousTrueSubset : Finset AssetKeyPartitionKey)
    (c : AssetKeyPartitionKey)
    (hc : c ∉ candidatesNotEvaluatedOnPreviousTick ∪ candidateParentHasOrWillUpdate) :
    (c ∈ skipOnParentOutdatedEvaluateForAsset parentsNotMaterializing
        ignorableMapping outdatedAncestors candidatesNotEvaluatedOnPreviousTick
        candidateParentHasOrWillUpdate previousTrueSubset ↔
      c ∈ previousTrueSubset) ∧
    (c ∈ skipOnParentMissingEvaluateForAsset parentsNotMaterializing isSource
        isObservable hasMaterializationOrObservation
        candidatesNotEvaluatedOnPreviousTick candidateParentHasOrWillUpdate
        previousTrueSubset ↔
      c ∈ previousTrueSubset) ∧
    (c ∈ skipOnNotAllParentsUpdatedEvaluateForAsset
        requireUpdateForAllParentPartitions selfAssetKey parentPartitionsOf
        updatedFromQueryOf parentWillUpdate parentAssetKeys
        candidatesNotEvaluatedOnPreviousTick candidateParentHasOrWillUpdate
        previousTrueSubset ↔
      c ∈ previousTrueSubset) ∧
    (c ∈ skipOnRequiredButNonexistentParentsEvaluateForAsset
        nonexistentParentPartitionsOf candidatesNotEvaluatedOnPreviousTick
        candidateParentHasOrWillUpdate previousTrueSubset ↔
      c ∈ previousTrueSubset) := by
  refine ⟨?_, ?_, ?_, ?_⟩ <;>
    exact (mem_merge_scope_filter
      (candidatesNotEvaluatedOnPreviousTick ∪ candidateParentHasOrWillUpdate)
      previousTrueSubset _ c).1 hc

/-- Witness for the amended C6 at a concrete out-of-scope candidate: nothing
is net-new and no parents changed, and the previously-skipped candidate
`("X", "p")` keeps its skip status under all four scoped rules. -/
theorem scoped_skip_rules_inherit_outside_scope_witness :
    ((⟨"X", some "p"⟩ : AssetKeyPartitionKey) ∉
      (∅ : Finset AssetKeyPartitionKey) ∪ ∅) ∧
    ((⟨"X", some "p"⟩ ∈ skipOnParentOutdatedEvaluateForAsset (fun _ => ∅)
        (fun _ _ => false) (fun _ => ∅) ∅ ∅ {⟨"X", some "p"⟩} ↔
      (⟨"X", some "p"⟩ : AssetKeyPartitionKey) ∈
        ({⟨"X", some "p"⟩} : Finset AssetKeyPartitionKey)) ∧
    (⟨"X", some "p"⟩ ∈ skipOnParentMissingEvaluateForAsset (fun _ => ∅)
        (fun _ => false) (fun _ => false) (fun _ => true) ∅ ∅ {⟨"X", some "p"⟩} ↔
      (⟨"X", some "p"⟩ : AssetKeyPartitionKey) ∈
        ({⟨"X", some "p"⟩} : Finset AssetKeyPartitionKey)) ∧
    (⟨"X", some "p"⟩ ∈ skipOnNotAllParentsUpdatedEvaluateForAsset false "X"
        (fun _ => ∅) (fun _ => ∅) ∅ ∅ ∅ ∅ {⟨"X", some "p"⟩} ↔
      (⟨"X", some "p"⟩ : AssetKeyPartitionKey) ∈
        ({⟨"X", some "p"⟩} : Finset AssetKeyPartitionKey)) ∧
    (⟨"X", some "p"⟩ ∈ skipOnRequiredButNonexistentParentsEvaluateForAsset
        (fun _ => ∅) ∅ ∅ {⟨"X", some "p"⟩} ↔
      (⟨"X", some "p"⟩ : AssetKeyPartitionKey) ∈
        ({⟨"X", some "p"⟩} : Finset AssetKeyPartitionKey))) := by
  refine ⟨by decide, ?_⟩
  have h := scoped_skip_rules_inherit_outside_scope (fun _ => ∅) (fun _ _ => false)
    (fun _ => ∅) (fun _ => false) (fun _ => false) (fun _ => true) false "X"
    (fun _ => ∅) (fun _ => ∅) ∅ ∅ (fun _ => ∅) ∅ ∅ {⟨"X", some "p"⟩}
    ⟨"X", some "p"⟩ (by decide)
  exact h

/-! ### `MaterializeOnParentUpdatedRule`: data-version precision threshold -/

/-- The `respect_materialization_data_versions` argument that
`MaterializeOnParentUpdatedRule.evaluate_for_asset` passes to the
updated-parents query for one candidate:
`context.daemon_context.respect_materialization_data_versions and
len(parent_asset_partitions) + subset_to_evaluate.size < 100`. -/
def respectMaterializationDataVersionsArg (daemonRespect : Bool)
    (numParentPartitions subsetToEvaluateSize : Nat) : Bool :=
  daemonRespect && decide (numParentPartitions + subsetToEvaluateSize < 100)

/-- C7 counterexample: with the daemon setting enabled, `50` parent partitions
stay below the threshold of `100`, yet a candidate subset of size `60` pushes
the code's guard `parents + subset_size < 100` over the limit, so the precise
comparison is not performed — refuting the claim that precision is used if
and only if the parent-partition count is below `100`. -/
theorem respect_data_versions_claim_counterexample :
    ¬ (∀ (numParentPartitions subsetToEvaluateSize : Nat),
        (respectMaterializationDataVersionsArg true numParentPartitions
            subsetToEvaluateSize = true ↔
          numParentPartitions < 100)) := by
  intro h
  have hfalse := (h 50 60).mpr (by decide)
  exact absurd hfalse (by decide)

/-- C7 (amended): the precise, data-version-aware comparison is requested if
and only if the daemon enables data-version respect and the number of parent
partitions of the candidate plus the size of the candidate subset being
re-evaluated stays strictly below `100`. -/
theorem respect_data_versions_threshold (daemonRespect : Bool)
    (numParentPartitions subsetToEvaluateSize : Nat) :
    respectMaterializationDataVersionsArg daemonRespect numParentPartitions
        subsetToEvaluateSize = true ↔
      daemonRespect = true ∧ numParentPartitions + subsetToEvaluateSize < 100 := by
  simp [respectMaterializationDataVersionsArg]

/-- Witness for the amended C7: at `50` parents plus `49` candidates the
precise comparison is used. -/
theorem respect_data_versions_threshold_witness :
    respectMaterializationDataVersionsArg true 50 49 = true ↔
      true = true ∧ 50 + 49 < 100 :=
  respect_data_versions_threshold true 50 49

/-! ### Self-dependencies never count as parents -/

/-- Modelled from the spec:
`instance_queryer.get_parent_asset_partitions_updated_after_child` is outside
the reviewed source; per the interface spec it returns the parents of a child
"updated after the child, optionally with strict data-version comparison and
a set of ignored parent keys" — a parent whose asset key is ignored is never
reported.  The per-parent updated verdict is an oracle parameter. -/
def getParentAssetPartitionsUpdatedAfterChild
    (updatedOracle : AssetKeyPartitionKey → Bool)
    (parentAssetPartitions : Finset AssetKeyPartitionKey)
    (ignoredParentKeys : Finset String) : Finset AssetKeyPartitionKey :=
  parentAssetPartitions.filter
    (fun parent => updatedOracle parent = true ∧ parent.assetKey ∉ ignoredParentKeys)

/-- The updated-parents set computed per candidate by
`MaterializeOnParentUpdatedRule.evaluate_for_asset`, which passes
`ignored_parent_keys={context.asset_key}` "to avoid historical
rematerializations from causing a chain of materializations". -/
def materializeOnParentUpdatedUpdatedParents
    (updatedOracle : AssetKeyPartitionKey → Bool) (selfAssetKey : String)
    (parentAssetPartitions : Finset AssetKeyPartitionKey) :
    Finset AssetKeyPartitionKey :=
  getParentAssetPartitionsUpdatedAfterChild updatedOracle parentAssetPartitions
    {selfAssetKey}

/-- C8: the entity's own asset key never appears among the updated parents of
`MaterializeOnParentUpdatedRule`, and is always removed from the non-updated
parent key set of `SkipOnNotAllParentsUpdatedRule`. -/
theorem self_never_counts_as_parent (updatedOracle : AssetKeyPartitionKey → Bool)
    (selfAssetKey : String) (parentAssetPartitions : Finset AssetKeyPartitionKey)
    (requireUpdateForAllParentPartitions : Bool)
    (parentPartitions updatedFromQuery parentWillUpdate : Finset AssetKeyPartitionKey)
    (parentAssetKeys : Finset String) :
    (∀ p ∈ materializeOnParentUpdatedUpdatedParents updatedOracle selfAssetKey
        parentAssetPartitions, p.assetKey ≠ selfAssetKey) ∧
    selfAssetKey ∉ nonUpdatedParentKeys requireUpdateForAllParentPartitions
      selfAssetKey parentPartitions updatedFromQuery parentWillUpdate
      parentAssetKeys := by
  constructor
  · intro p hp
    rw [materializeOnParentUpdatedUpdatedParents,
      getParentAssetPartitionsUpdatedAfterChild, Finset.mem_filter] at hp
    exact fun heq => hp.2.2 (heq ▸ Finset.mem_singleton_self selfAssetKey)
  · rw [nonUpdatedParentKeys, Finset.mem_sdiff]
    exact fun hmem => hmem.2 (Finset.mem_singleton_self selfAssetKey)

/-- Witness for C8: a parent of asset `parent` reported updated for child
asset `child` has a key distinct from the child's, and `child` is absent from
its own non-updated parent key set. -/
theorem self_never_counts_as_parent_witness :
    ((⟨"parent", none⟩ : AssetKeyPartitionKey) ∈
        materializeOnParentUpdatedUpdatedParents (fun _ => true) "child"
          {⟨"parent", none⟩} ∧
      (⟨"parent", none⟩ : AssetKeyPartitionKey).assetKey ≠ "child") ∧
    "child" ∉ nonUpdatedParentKeys false "child" ∅ ∅ ∅ {"child", "parent"} := by
  have h := self_never_counts_as_parent (fun _ => true) "child" {⟨"parent", none⟩}
    false ∅ ∅ ∅ {"child", "parent"}
  exact ⟨⟨by decide, h.1 ⟨"parent", none⟩ (by decide)⟩, h.2⟩

/-! ### `AutoMaterializeAssetPartitionsFilter.passes` -/

/-- `AUTO_MATERIALIZE_TAG` from `dagster/_core/storage/tags.py` (outside the
reviewed source): the distinguished tag key carried by this tick's own
automated runs; its exact value is irrelevant to the statements proved. -/
def autoMaterializeTagKey : String := "dagster/auto_materialize"

/-- The context facilities used by `passes`: whether an asset partition will
be updated on this tick, the run id of its latest materialization or
observation record (`none` when the record is missing), the run-store bulk
query resolving which of the given run ids carry all the required tags
(`instance.get_run_ids(filters=RunsFilter(run_ids=..., tags=...))`), and the
daemon's auto-materialize run tags. -/
structure PartitionsFilterCtx where
  willUpdate : AssetKeyPartitionKey → Bool
  latestRecordRunId : AssetKeyPartitionKey → Option String
  runIdsWithRequiredTags : List String → Finset String
  autoMaterializeRunTags : List (String × String)

/-- Lookup in a tag mapping modelled as an association list; the earlier
entry wins, so an overriding entry is placed in front. -/
def tagLookup (m : List (String × String)) (k : String) : Option String :=
  (m.find? (fun kv => kv.1 == k)).map (fun kv => kv.2)

/-- Python's `d1.items() <= d2.items()` on tag dicts: every key of the first
maps to the same value in the second. -/
def tagsSubset (d1 d2 : List (String × String)) : Bool :=
  d1.all (fun kv => tagLookup d2 kv.1 == some kv.2)

/-- The first loop of `passes`: walk the input partitions, separating those
that `will_update` this tick from the rest, pairing each of the rest with the
run id of its latest materialization/observation record, and raising
(`raise RuntimeError(...)`) at the first such partition whose record is
missing. -/
def passesSplit (ctx : PartitionsFilterCtx) :
    List AssetKeyPartitionKey →
      Except String (List AssetKeyPartitionKey × List (String × AssetKeyPartitionKey))
  | [] => Except.ok ([], [])
  | ap :: rest =>
    if ctx.willUpdate ap then
      match passesSplit ctx rest with
      | Except.error e => Except.error e
      | Except.ok (willUpdatePartitions, pairs) =>
        Except.ok (ap :: willUpdatePartitions, pairs)
    else
      match ctx.latestRecordRunId ap with
      | none => Except.error "No materialization record found for asset partition"
      | some runId =>
        match passesSplit ctx rest with
        | Except.error e => Except.error e
        | Except.ok (willUpdatePartitions, pairs) =>
          Except.ok (willUpdatePartitions, (runId, ap) :: pairs)

/-- `AutoMaterializeAssetPartitionsFilter.passes`: with no required tags the
input collection is returned unchanged; otherwise split the input, issue one
bulk run-store query for the latest run ids (skipped when there are none),
keep the already-updated partitions whose latest run carries the required
tags, and include the will-update partitions exactly when the required tags
are a subset of the tags this tick's own automated runs will carry
(`{AUTO_MATERIALIZE_TAG: "true", **auto_materialize_run_tags}`, the daemon
tags overriding). -/
def passes (latestRunRequiredTags : Option (List (String × String)))
    (ctx : PartitionsFilterCtx) (assetPartitions : List AssetKeyPartitionKey) :
    Except String (List AssetKeyPartitionKey) :=
  match latestRunRequiredTags with
  | none => Except.ok assetPartitions
  | some requiredTags =>
    match passesSplit ctx assetPartitions with
    | Except.error e => Except.error e
    | Except.ok (willUpdatePartitions, pairs) =>
      let runIdsWithTags :=
        if pairs.isEmpty then (∅ : Finset String)
        else ctx.runIdsWithRequiredTags (pairs.map (fun pr => pr.1))
      let updatedWithTags :=
        (pairs.filter (fun pr => pr.1 ∈ runIdsWithTags)).map (fun pr => pr.2)
      if tagsSubset requiredTags
          (ctx.autoMaterializeRunTags ++ [(autoMaterializeTagKey, "true")]) then
        Except.ok (willUpdatePartitions ++ updatedWithTags)
      else
        Except.ok updatedWithTags

/-- C9: whenever some input partition is not pending update this tick and has
no latest materialization/observation record, `passes` (with required tags
present, so that records are consulted) raises instead of returning. -/
theorem passes_raises_on_missing_record (requiredTags : List (String × String))
    (ctx : PartitionsFilterCtx) (assetPartitions : List AssetKeyPartitionKey)
    (ap : AssetKeyPartitionKey) (hmem : ap ∈ assetPartitions)
    (hwu : ctx.willUpdate ap = false) (hrec : ctx.latestRecordRunId ap = none) :
    ∃ e, passes (some requiredTags) ctx assetPartitions = Except.error e := by
  suffices h : ∃ e, passesSplit ctx assetPartitions = Except.error e by
    obtain ⟨e, he⟩ := h
    exact ⟨e, by simp only [passes, he]⟩
  induction assetPartitions with
  | nil => exact absurd hmem (List.not_mem_nil ap)
  | cons hd tl ih =>
    rcases List.mem_cons.mp hmem with heq | htl
    · subst heq
      exact ⟨"No materialization record found for asset partition",
        by simp only [passesSplit, hwu, Bool.false_eq_true, if_false, hrec]⟩
    · obtain ⟨e, he⟩ := ih htl
      cases hw : ctx.willUpdate hd
      · cases hr : ctx.latestRecordRunId hd with
        | none =>
          exact ⟨"No materialization record found for asset partition",
            by simp only [passesSplit, hw, Bool.false_eq_true, if_false, hr]⟩
        | some runId =>
          exact ⟨e, by simp only [passesSplit, hw, Bool.false_eq_true, if_false, hr, he]⟩
      · exact ⟨e, by simp only [passesSplit, hw, if_true, he]⟩

/-- A concrete filter context in which nothing will update this tick and no
record exists for any partition. -/
def emptyHistoryCtx : PartitionsFilterCtx where
  willUpdate _ := false
  latestRecordRunId _ := none
  runIdsWithRequiredTags _ := ∅
  autoMaterializeRunTags := []

/-- Witness for C9: one input partition, not pending update and with no
record, makes `passes` raise. -/
theorem passes_raises_on_missing_record_witness :
    ((⟨"a", none⟩ : AssetKeyPartitionKey) ∈ [(⟨"a", none⟩ : AssetKeyPartitionKey)] ∧
      emptyHistoryCtx.willUpdate ⟨"a", none⟩ = false ∧
      emptyHistoryCtx.latestRecordRunId ⟨"a", none⟩ = none) ∧
    (∃ e, passes (some [("team", "data")]) emptyHistoryCtx [⟨"a", none⟩] =
      Except.error e) :=
  ⟨⟨by decide, rfl, rfl⟩,
   passes_raises_on_missing_record [("team", "data")] emptyHistoryCtx
     [⟨"a", none⟩] ⟨"a", none⟩ (by decide) rfl rfl⟩

/-- C10: with `latest_run_required_tags` equal to `None`, `passes` returns
the input collection unchanged for every context, and the result does not
depend on the context at all — in particular no run-store query can influence
it. -/
theorem passes_none_is_identity (ctx ctx' : PartitionsFilterCtx)
    (assetPartitions : List AssetKeyPartitionKey) :
    passes none ctx assetPartitions = Except.ok assetPartitions ∧
    passes none ctx assetPartitions = passes none ctx' assetPartitions :=
  ⟨rfl, rfl⟩

end DagsterAutoMaterialize
